import Mathlib

set_option linter.unusedVariables false

/-!
Shallow embedding of the LADEX browser client transfer engine
(src/static/app.js): the relay-chunk send path, the receive-side
chunk assembler, the websocket reconnect behaviour, and the
spec-modelled metadata directory.  Bytes are Nat values below 256,
JS Maps are association lists, and the btoa/atob pair is modelled
as standard base64 over byte lists.
-/

/-- Association-list lookup, modelling JS Map.get (first matching key). -/
def getAssoc {α β : Type} [DecidableEq α] : List (α × β) → α → Option β
  | [], _ => none
  | (k, v) :: rest, k0 => if k0 = k then some v else getAssoc rest k0

/-- Association-list update, modelling JS Map.set and JS array index
    assignment: overwrites the entry for the key when present, else appends. -/
def setAssoc {α β : Type} [DecidableEq α] : List (α × β) → α → β → List (α × β)
  | [], k, v => [(k, v)]
  | (k1, v1) :: rest, k, v =>
    if k = k1 then (k, v) :: rest else (k1, v1) :: setAssoc rest k v

/-- Association-list removal, modelling JS Map.delete. -/
def delAssoc {α β : Type} [DecidableEq α] : List (α × β) → α → List (α × β)
  | [], _ => []
  | (k1, v1) :: rest, k =>
    if k = k1 then delAssoc rest k else (k1, v1) :: delAssoc rest k

theorem getAssoc_setAssoc_self {α β : Type} [DecidableEq α]
    (m : List (α × β)) (k : α) (v : β) :
    getAssoc (setAssoc m k v) k = some v := by
  induction m with
  | nil => simp [getAssoc, setAssoc]
  | cons p rest ih =>
    obtain ⟨k1, v1⟩ := p
    by_cases h : k = k1
    · subst h; simp [getAssoc, setAssoc]
    · simp [getAssoc, setAssoc, h, ih]

theorem getAssoc_setAssoc_ne {α β : Type} [DecidableEq α]
    (m : List (α × β)) (k k0 : α) (v : β) (h : k0 ≠ k) :
    getAssoc (setAssoc m k v) k0 = getAssoc m k0 := by
  induction m with
  | nil => simp [getAssoc, setAssoc, h]
  | cons p rest ih =>
    obtain ⟨k1, v1⟩ := p
    by_cases h1 : k = k1
    · subst h1; simp [getAssoc, setAssoc, h]
    · by_cases h2 : k0 = k1
      · subst h2; simp [getAssoc, setAssoc, h1]
      · simp [getAssoc, setAssoc, h1, h2, ih]

theorem getAssoc_delAssoc_self {α β : Type} [DecidableEq α]
    (m : List (α × β)) (k : α) :
    getAssoc (delAssoc m k) k = none := by
  induction m with
  | nil => simp [getAssoc, delAssoc]
  | cons p rest ih =>
    obtain ⟨k1, v1⟩ := p
    by_cases h : k = k1
    · subst h; simp [delAssoc, ih]
    · simp [getAssoc, delAssoc, h, ih]

theorem delAssoc_setAssoc_self {α β : Type} [DecidableEq α]
    (m : List (α × β)) (k : α) (v : β) :
    delAssoc (setAssoc m k v) k = delAssoc m k := by
  induction m with
  | nil => simp [delAssoc, setAssoc]
  | cons p rest ih =>
    obtain ⟨k1, v1⟩ := p
    by_cases h : k = k1
    · subst h; simp [delAssoc, setAssoc]
    · simp [delAssoc, setAssoc, h, ih]

/-- The base64 alphabet used by the browser builtins btoa and atob. -/
def b64alphabet : List Char :=
  ['A','B','C','D','E','F','G','H','I','J','K','L','M',
   'N','O','P','Q','R','S','T','U','V','W','X','Y','Z',
   'a','b','c','d','e','f','g','h','i','j','k','l','m',
   'n','o','p','q','r','s','t','u','v','w','x','y','z',
   '0','1','2','3','4','5','6','7','8','9','+','/']

/-- Character for a 6-bit value. -/
def b64char (n : Nat) : Char := b64alphabet.getD n '='

/-- Index of a character in the base64 alphabet. -/
def b64val (c : Char) : Option Nat := b64alphabet.findIdx? (fun a => a == c)

/-- Model of arrayBufferToBase64 (app.js lines 554-562): btoa over the
    byte-per-character packing, that is standard base64 of a byte list. -/
def b64encode : List Nat → List Char
  | [] => []
  | [b0] => [b64char (b0 / 4), b64char (b0 % 4 * 16), '=', '=']
  | [b0, b1] =>
    [b64char (b0 / 4), b64char (b0 % 4 * 16 + b1 / 16), b64char (b1 % 16 * 4), '=']
  | b0 :: b1 :: b2 :: rest =>
    b64char (b0 / 4) :: b64char (b0 % 4 * 16 + b1 / 16) ::
      b64char (b1 % 16 * 4 + b2 / 64) :: b64char (b2 % 64) :: b64encode rest

/-- Model of the browser builtin atob as used in assembleAndDownloadFile:
    standard base64 decoding of a character list back to a byte list,
    returning none where atob would throw. -/
def b64decode : List Char → Option (List Nat)
  | [] => some []
  | c0 :: c1 :: c2 :: c3 :: rest =>
    match b64val c0, b64val c1 with
    | some v0, some v1 =>
      if c2 = '=' then
        if c3 = '=' then
          if rest = [] then some [v0 * 4 + v1 / 16] else none
        else none
      else
        match b64val c2 with
        | some v2 =>
          if c3 = '=' then
            if rest = [] then some [v0 * 4 + v1 / 16, v1 % 16 * 16 + v2 / 4] else none
          else
            match b64val c3 with
            | some v3 =>
              match b64decode rest with
              | some tl =>
                some ((v0 * 4 + v1 / 16) :: (v1 % 16 * 16 + v2 / 4) :: (v2 % 4 * 64 + v3) :: tl)
              | none => none
            | none => none
        | none => none
    | _, _ => none
  | _ => none

theorem b64val_b64char : ∀ v < 64, b64val (b64char v) = some v := by decide

theorem b64char_ne_pad : ∀ v < 64, b64char v ≠ '=' := by decide

theorem b64encode_ne_nil : ∀ bs : List Nat, bs ≠ [] → b64encode bs ≠ []
  | [], h => absurd rfl h
  | [b0], _ => by simp [b64encode]
  | [b0, b1], _ => by simp [b64encode]
  | b0 :: b1 :: b2 :: rest, _ => by simp [b64encode]

theorem b64decode_b64encode :
    ∀ bs : List Nat, (∀ b ∈ bs, b < 256) → b64decode (b64encode bs) = some bs
  | [], _ => rfl
  | [b0], h => by
    have h0 : b0 < 256 := h b0 (by simp)
    have e0 : b64val (b64char (b0 / 4)) = some (b0 / 4) :=
      b64val_b64char _ (by omega)
    have e1 : b64val (b64char (b0 % 4 * 16)) = some (b0 % 4 * 16) :=
      b64val_b64char _ (by omega)
    simp only [b64encode, b64decode, e0, e1, if_pos rfl, if_true, if_false,
      Option.some.injEq, List.cons.injEq, and_true]
    omega
  | [b0, b1], h => by
    have h0 : b0 < 256 := h b0 (by simp)
    have h1 : b1 < 256 := h b1 (by simp)
    have e0 : b64val (b64char (b0 / 4)) = some (b0 / 4) :=
      b64val_b64char _ (by omega)
    have e1 : b64val (b64char (b0 % 4 * 16 + b1 / 16)) = some (b0 % 4 * 16 + b1 / 16) :=
      b64val_b64char _ (by omega)
    have e2 : b64val (b64char (b1 % 16 * 4)) = some (b1 % 16 * 4) :=
      b64val_b64char _ (by omega)
    have n2 : b64char (b1 % 16 * 4) ≠ '=' := b64char_ne_pad _ (by omega)
    simp only [b64encode, b64decode, e0, e1, e2, if_neg n2, if_pos rfl, if_true, if_false,
      Option.some.injEq, List.cons.injEq, and_true]
    omega
  | b0 :: b1 :: b2 :: rest, h => by
    have h0 : b0 < 256 := h b0 (by simp)
    have h1 : b1 < 256 := h b1 (by simp)
    have h2 : b2 < 256 := h b2 (by simp)
    have ih : b64decode (b64encode rest) = some rest :=
      b64decode_b64encode rest (fun b hb => h b (by simp [hb]))
    have e0 : b64val (b64char (b0 / 4)) = some (b0 / 4) :=
      b64val_b64char _ (by omega)
    have e1 : b64val (b64char (b0 % 4 * 16 + b1 / 16)) = some (b0 % 4 * 16 + b1 / 16) :=
      b64val_b64char _ (by omega)
    have e2 : b64val (b64char (b1 % 16 * 4 + b2 / 64)) = some (b1 % 16 * 4 + b2 / 64) :=
      b64val_b64char _ (by omega)
    have e3 : b64val (b64char (b2 % 64)) = some (b2 % 64) :=
      b64val_b64char _ (by omega)
    have n2 : b64char (b1 % 16 * 4 + b2 / 64) ≠ '=' := b64char_ne_pad _ (by omega)
    have n3 : b64char (b2 % 64) ≠ '=' := b64char_ne_pad _ (by omega)
    have henc : b64encode (b0 :: b1 :: b2 :: rest) =
        b64char (b0 / 4) :: b64char (b0 % 4 * 16 + b1 / 16) ::
          b64char (b1 % 16 * 4 + b2 / 64) :: b64char (b2 % 64) ::
          b64encode rest := rfl
    rw [henc]
    simp only [b64decode, e0, e1, e2, e3, if_neg n2, if_neg n3, ih, if_true, if_false,
      Option.some.injEq, List.cons.injEq, and_true]
    omega

/-- One transfer in progress on the receive side: mirrors the object
    stored in activeDownloads by handleFileMetadata (app.js lines 583-592).
    The chunk slot array is modelled as an association list from index to
    the stored base64 payload, since a JS array assignment at any index
    (even out of range) simply sets that property. -/
structure Download where
  chunks : List (Nat × List Char)
  expectedChunks : Nat
  receivedChunks : Nat
  fileName : String
  mimeType : String
  fileSize : Nat
  fromPeer : String
deriving DecidableEq

/-- Fields of a file_metadata message as read by handleFileMetadata. -/
structure FileMetadataMsg where
  session_id : String
  file_id : String
  file_name : String
  file_size : Nat
  mime_type : String
  total_chunks : Nat
  target_session_id : String
  from_session_id : String
deriving DecidableEq

/-- Fields of a file_chunk message as read by handleFileChunk; data is
    none when the payload is missing or not a string. -/
structure FileChunkMsg where
  session_id : String
  file_id : String
  chunk_index : Nat
  total_chunks : Nat
  data : Option (List Char)
  target_session_id : String
deriving DecidableEq

/-- Messages the client sends to the relay through sendMessage. -/
inductive OutMsg where
  | join (session_id user_agent : String)
  | requestDownload (session_id file_id : String)
  | fileMetadata (m : FileMetadataMsg)
  | fileChunk (m : FileChunkMsg)
  | fileDownloaded (session_id file_id : String)
deriving DecidableEq

/-- The console.error rejections inside handleFileChunk. -/
inductive LogEvent where
  | unknownDownload (file_id : String)
  | invalidChunkData (file_id : String) (chunk_index : Nat)
deriving DecidableEq

/-- The showError reports raised from assembleAndDownloadFile. -/
inductive ErrEvent where
  | missingChunks (idxs : List Nat)
  | decodeFailed (idx : Nat)
deriving DecidableEq

/-- The observable client state touched by the transfer engine: the JS
    fields files, activeDownloads and pendingDownloads, plus effect logs
    for files delivered to the user (the a.click() browser download),
    showError reports, console.error rejections, and outgoing messages. -/
structure AppState where
  sessionId : String
  files : List (String × List Nat)
  activeDownloads : List (String × Download)
  pendingDownloads : List String
  delivered : List (String × List Nat)
  errors : List ErrEvent
  logs : List LogEvent
  outbox : List OutMsg
deriving DecidableEq

/-- Indices in range with an empty slot, as computed by the missing-chunk
    scan in assembleAndDownloadFile (app.js lines 631-636). -/
def missingChunks (d : Download) : List Nat :=
  (List.range d.expectedChunks).filter (fun i => (getAssoc d.chunks i).isNone)

/-- The decode-and-concatenate loop of assembleAndDownloadFile (app.js
    lines 643-654): decodes each slot in index order, accumulating bytes,
    failing with the first index whose payload atob rejects. -/
def decodeList : List (Option (List Char)) → Nat → Except Nat (List Nat)
  | [], _ => .ok []
  | oc :: rest, i =>
    match oc with
    | none => .error i
    | some c =>
      match b64decode c with
      | none => .error i
      | some bs =>
        match decodeList rest (i + 1) with
        | .error j => .error j
        | .ok tl => .ok (bs ++ tl)

/-- Model of assembleAndDownloadFile (app.js lines 626-693): checks for
    missing slots, decodes every slot in index order, and on success stores
    the file, triggers the browser download, deletes the activeDownloads
    entry and reports file_downloaded.  The declared fileSize is only
    logged by the code, never compared, so it is not read here.  Any
    failure reports an error, deletes the entry and delivers nothing. -/
def assembleAndDownloadFile (st : AppState) (fileId : String) (d : Download) : AppState :=
  if missingChunks d ≠ [] then
    { st with errors := st.errors ++ [.missingChunks (missingChunks d)],
              activeDownloads := delAssoc st.activeDownloads fileId }
  else
    match decodeList ((List.range d.expectedChunks).map (getAssoc d.chunks)) 0 with
    | .error i =>
      { st with errors := st.errors ++ [.decodeFailed i],
                activeDownloads := delAssoc st.activeDownloads fileId }
    | .ok bytes =>
      { st with files := setAssoc st.files fileId bytes,
                delivered := st.delivered ++ [(fileId, bytes)],
                activeDownloads := delAssoc st.activeDownloads fileId,
                outbox := st.outbox ++ [.fileDownloaded st.sessionId fileId] }

/-- Model of handleFileMetadata (app.js lines 576-595): ignores messages
    addressed to another peer, else installs a fresh download entry with
    empty slots and a zero received count. -/
def handleFileMetadata (st : AppState) (m : FileMetadataMsg) : AppState :=
  if m.target_session_id ≠ st.sessionId then st
  else
    let d0 : Download :=
      { chunks := [], expectedChunks := m.total_chunks, receivedChunks := 0,
        fileName := m.file_name, mimeType := m.mime_type,
        fileSize := m.file_size, fromPeer := m.from_session_id }
    { st with activeDownloads := setAssoc st.activeDownloads m.file_id d0 }

/-- The in-place mutation of the download entry performed by
    handleFileChunk: store the payload at the index, bump the count. -/
def bumpDownload (d : Download) (idx : Nat) (payload : List Char) : Download :=
  { d with chunks := setAssoc d.chunks idx payload,
           receivedChunks := d.receivedChunks + 1 }

/-- Replacing the activeDownloads entry for a file id, as the JS in-place
    mutation of the object held in the Map leaves the updated object there. -/
def storeDownload (st : AppState) (fid : String) (d : Download) : AppState :=
  { st with activeDownloads := setAssoc st.activeDownloads fid d }

/-- The storing tail of handleFileChunk, split out for reuse in proofs:
    store the payload, bump the count, and assemble on exact equality. -/
def handleChunkStore (st : AppState) (m : FileChunkMsg) (d : Download)
    (payload : List Char) : AppState :=
  if (bumpDownload d m.chunk_index payload).receivedChunks =
      (bumpDownload d m.chunk_index payload).expectedChunks then
    assembleAndDownloadFile
      (storeDownload st m.file_id (bumpDownload d m.chunk_index payload))
      m.file_id (bumpDownload d m.chunk_index payload)
  else
    storeDownload st m.file_id (bumpDownload d m.chunk_index payload)

/-- Model of handleFileChunk (app.js lines 597-624): ignores messages for
    another peer, logs and drops chunks for unknown downloads and falsy or
    non-string payloads, and otherwise stores the payload at the given
    index (no range check) and increments receivedChunks unconditionally;
    when the count reaches expectedChunks exactly, assembly runs. -/
def handleFileChunk (st : AppState) (m : FileChunkMsg) : AppState :=
  if m.target_session_id ≠ st.sessionId then st
  else
    match getAssoc st.activeDownloads m.file_id with
    | none => { st with logs := st.logs ++ [.unknownDownload m.file_id] }
    | some d =>
      match m.data with
      | none => { st with logs := st.logs ++ [.invalidChunkData m.file_id m.chunk_index] }
      | some payload =>
        if payload = [] then
          { st with logs := st.logs ++ [.invalidChunkData m.file_id m.chunk_index] }
        else
          handleChunkStore st m d payload

/-- The fixed 64 KiB chunk size of sendFileToRequester (app.js line 490). -/
def chunkSizeConst : Nat := 64 * 1024

/-- Math.ceil(size / C) on naturals, as at app.js line 491. -/
def totalChunksOf (size C : Nat) : Nat := (size + C - 1) / C

/-- The slice uint8Array.slice(i * C, min(i * C + C, length)) taken at
    app.js lines 511-513. -/
def chunkData (content : List Nat) (C i : Nat) : List Nat :=
  (content.drop (i * C)).take C

/-- The chunk-message loop of sendFileToRequester (app.js lines 510-533),
    with the chunk size as a parameter: one file_chunk message per index
    in increasing order, each carrying the base64-encoded slice. -/
def emitChunks (sid fid target : String) (content : List Nat) (C : Nat) : List OutMsg :=
  (List.range (totalChunksOf content.length C)).map fun i =>
    .fileChunk { session_id := sid, file_id := fid, chunk_index := i,
                 total_chunks := totalChunksOf content.length C,
                 data := some (b64encode (chunkData content C i)),
                 target_session_id := target }

/-- Model of sendFileToRequester (app.js lines 486-543): one file_metadata
    message, then the chunk messages at the fixed chunk size.  No further
    message follows the last chunk. -/
def sendFileToRequester (sid requester fid name mime : String)
    (content : List Nat) : List OutMsg :=
  .fileMetadata { session_id := sid, file_id := fid, file_name := name,
                  file_size := content.length, mime_type := mime,
                  total_chunks := totalChunksOf content.length chunkSizeConst,
                  target_session_id := requester, from_session_id := sid }
    :: emitChunks sid fid requester content chunkSizeConst

/-- Routing of a relayed message into the receiving client's handler, as
    in handleServerMessage (app.js lines 118-154) for the two transfer
    message kinds. -/
def deliverMsg (st : AppState) (m : OutMsg) : AppState :=
  match m with
  | .fileMetadata mm => handleFileMetadata st mm
  | .fileChunk cm => handleFileChunk st cm
  | _ => st

/-- A full host-to-requester relay transfer: every message the host emits
    for the file, processed in order by the requesting client. -/
def runTransfer (st0 : AppState) (host fid name mime : String)
    (content : List Nat) : AppState :=
  (sendFileToRequester host st0.sessionId fid name mime content).foldl deliverMsg st0

theorem chunkSizeConst_pos : 0 < chunkSizeConst := by decide

theorem totalChunksOf_zero (C : Nat) (hC : 0 < C) : totalChunksOf 0 C = 0 := by
  unfold totalChunksOf
  apply Nat.div_eq_of_lt
  omega

theorem totalChunksOf_succ (C s : Nat) (hC : 0 < C) (hs : 0 < s) :
    totalChunksOf s C = totalChunksOf (s - C) C + 1 := by
  unfold totalChunksOf
  by_cases h : s ≤ C
  · have h1 : s + C - 1 = (s - 1) + C := by omega
    have h2 : s - C = 0 := by omega
    rw [h1, Nat.add_div_right _ hC, h2]
    rw [Nat.div_eq_of_lt (by omega : s - 1 < C), Nat.div_eq_of_lt (by omega : 0 + C - 1 < C)]
  · have h1 : s + C - 1 = (s - C + C - 1) + C := by omega
    rw [h1, Nat.add_div_right _ hC]

theorem totalChunksOf_pos (C s : Nat) (hC : 0 < C) (hs : 0 < s) :
    0 < totalChunksOf s C := by
  rw [totalChunksOf_succ C s hC hs]
  omega

theorem mul_lt_of_lt_totalChunksOf (C s i : Nat) (hC : 0 < C)
    (h : i < totalChunksOf s C) : i * C < s := by
  unfold totalChunksOf at h
  have h1 : i + 1 ≤ (s + C - 1) / C := h
  have h2 : (i + 1) * C ≤ (s + C - 1) / C * C := Nat.mul_le_mul_right _ h1
  have h3 : (s + C - 1) / C * C ≤ s + C - 1 := Nat.div_mul_le_self _ _
  have h4 : (i + 1) * C = i * C + C := by ring
  by_cases hs : 0 < s
  · omega
  · have hz : s = 0 := by omega
    subst hz
    have h5 : (0 + C - 1) / C = 0 := Nat.div_eq_of_lt (by omega)
    omega

theorem le_totalChunksOf_mul (C s : Nat) (hC : 0 < C) :
    s ≤ totalChunksOf s C * C := by
  unfold totalChunksOf
  have h2 : s + C - 1 < ((s + C - 1) / C + 1) * C :=
    (Nat.div_lt_iff_lt_mul hC).mp (Nat.lt_succ_self _)
  have h3 : ((s + C - 1) / C + 1) * C = (s + C - 1) / C * C + C := by ring
  omega

theorem chunkData_length (content : List Nat) (C i : Nat) :
    (chunkData content C i).length = min C (content.length - i * C) := by
  simp [chunkData]

theorem chunkData_succ (content : List Nat) (C i : Nat) :
    chunkData content C (i + 1) = chunkData (content.drop C) C i := by
  unfold chunkData
  rw [List.drop_drop]
  have h : C + i * C = (i + 1) * C := by ring
  rw [h]

theorem chunkData_zero (content : List Nat) (C : Nat) :
    chunkData content C 0 = content.take C := by
  simp [chunkData]

theorem mem_chunkData (content : List Nat) (C i : Nat) (b : Nat)
    (h : b ∈ chunkData content C i) : b ∈ content := by
  unfold chunkData at h
  exact List.drop_subset _ _ (List.take_subset _ _ h)

theorem chunkData_ne_nil (content : List Nat) (C i : Nat) (hC : 0 < C)
    (h : i < totalChunksOf content.length C) : chunkData content C i ≠ [] := by
  have h1 : i * C < content.length := mul_lt_of_lt_totalChunksOf C _ i hC h
  have h2 : 0 < (chunkData content C i).length := by
    rw [chunkData_length]
    omega
  exact List.length_pos.mp h2

theorem chunks_join (C : Nat) (hC : 0 < C) (content : List Nat) :
    ((List.range (totalChunksOf content.length C)).map (chunkData content C)).flatten
      = content := by
  by_cases h : content = []
  · subst h
    simp [totalChunksOf_zero C hC]
  · have hlen : 0 < content.length := List.length_pos.mpr h
    have hdl : (content.drop C).length < content.length := by
      rw [List.length_drop]
      omega
    have ih := chunks_join C hC (content.drop C)
    have hstep : totalChunksOf content.length C =
        totalChunksOf (content.drop C).length C + 1 := by
      rw [List.length_drop]
      exact totalChunksOf_succ C content.length hC hlen
    rw [hstep, List.range_succ_eq_map, List.map_cons, List.map_map, List.flatten_cons]
    have hmap : (List.range (totalChunksOf (content.drop C).length C)).map
          (chunkData content C ∘ Nat.succ) =
        (List.range (totalChunksOf (content.drop C).length C)).map
          (chunkData (content.drop C) C) := by
      apply List.map_congr_left
      intro i hi
      exact chunkData_succ content C i
    rw [hmap, ih, chunkData_zero, List.take_append_drop]
termination_by content.length

/-- Slot store obtained by storing the encoded chunks 0 to k-1 in order. -/
def buildSlots (enc : Nat → List Char) : Nat → List (Nat × List Char)
  | 0 => []
  | k + 1 => setAssoc (buildSlots enc k) k (enc k)

theorem getAssoc_buildSlots (enc : Nat → List Char) :
    ∀ k i, i < k → getAssoc (buildSlots enc k) i = some (enc i) := by
  intro k
  induction k with
  | zero => intro i h; omega
  | succ k ih =>
    intro i h
    by_cases hik : i = k
    · subst hik
      simp [buildSlots, getAssoc_setAssoc_self]
    · have hlt : i < k := by omega
      rw [buildSlots, getAssoc_setAssoc_ne _ _ _ _ hik, ih i hlt]

theorem decodeList_all_ok (cs : List (List Char)) :
    ∀ i, (∀ c ∈ cs, (b64decode c).isSome) →
      decodeList (cs.map some) i =
        .ok (cs.map (fun c => (b64decode c).getD [])).flatten := by
  induction cs with
  | nil => intro i h; rfl
  | cons c rest ih =>
    intro i h
    have hc : (b64decode c).isSome := h c (by simp)
    obtain ⟨bs, hbs⟩ := Option.isSome_iff_exists.mp hc
    have ih1 := ih (i + 1) (fun x hx => h x (by simp [hx]))
    simp [decodeList, hbs, ih1]

/-- The base64 payload the emitter produces for chunk i at the fixed
    chunk size. -/
def encOf (content : List Nat) (i : Nat) : List Char :=
  b64encode (chunkData content chunkSizeConst i)

/-- The chunk message for index i as built by sendFileToRequester. -/
def chunkMsgAt (sid fid target : String) (content : List Nat) (i : Nat) : FileChunkMsg :=
  { session_id := sid, file_id := fid, chunk_index := i,
    total_chunks := totalChunksOf content.length chunkSizeConst,
    data := some (encOf content i),
    target_session_id := target }

/-- The download entry after the metadata message and the first k chunk
    messages of a transfer have been processed in order. -/
def dlAt (host name mime : String) (content : List Nat) (k : Nat) : Download :=
  { chunks := buildSlots (encOf content) k,
    expectedChunks := totalChunksOf content.length chunkSizeConst,
    receivedChunks := k,
    fileName := name, mimeType := mime,
    fileSize := content.length, fromPeer := host }

theorem emitChunks_eq (sid fid target : String) (content : List Nat) :
    emitChunks sid fid target content chunkSizeConst =
      (List.range' 0 (totalChunksOf content.length chunkSizeConst)).map
        (fun i => OutMsg.fileChunk (chunkMsgAt sid fid target content i)) := by
  rw [emitChunks, ← List.range_eq_range']
  rfl

theorem assemble_full (st : AppState) (host fid name mime : String)
    (content : List Nat) (hbytes : ∀ b ∈ content, b < 256) :
    assembleAndDownloadFile st fid
        (dlAt host name mime content (totalChunksOf content.length chunkSizeConst)) =
      { st with
        files := setAssoc st.files fid content,
        delivered := st.delivered ++ [(fid, content)],
        activeDownloads := delAssoc st.activeDownloads fid,
        outbox := st.outbox ++ [OutMsg.fileDownloaded st.sessionId fid] } := by
  have hslot : ∀ i < totalChunksOf content.length chunkSizeConst,
      getAssoc (buildSlots (encOf content)
        (totalChunksOf content.length chunkSizeConst)) i = some (encOf content i) :=
    fun i hi => getAssoc_buildSlots (encOf content) _ i hi
  have hmiss : missingChunks
      (dlAt host name mime content (totalChunksOf content.length chunkSizeConst)) = [] := by
    unfold missingChunks dlAt
    apply List.filter_eq_nil_iff.mpr
    intro i hi
    have hi2 : i < totalChunksOf content.length chunkSizeConst := List.mem_range.mp hi
    simp [hslot i hi2]
  have hdecchunk : ∀ i < totalChunksOf content.length chunkSizeConst,
      b64decode (encOf content i) = some (chunkData content chunkSizeConst i) := by
    intro i hi
    exact b64decode_b64encode _ (fun b hb => hbytes b (mem_chunkData _ _ _ b hb))
  have hmap1 : (List.range (totalChunksOf content.length chunkSizeConst)).map
        (getAssoc (buildSlots (encOf content)
          (totalChunksOf content.length chunkSizeConst))) =
      ((List.range (totalChunksOf content.length chunkSizeConst)).map
        (encOf content)).map some := by
    rw [List.map_map]
    apply List.map_congr_left
    intro i hi
    exact hslot i (List.mem_range.mp hi)
  have hsome : ∀ c ∈ (List.range (totalChunksOf content.length chunkSizeConst)).map
      (encOf content), (b64decode c).isSome := by
    intro c hc
    obtain ⟨i, hi, rfl⟩ := List.mem_map.mp hc
    rw [hdecchunk i (List.mem_range.mp hi)]
    rfl
  have hdec := decodeList_all_ok
    ((List.range (totalChunksOf content.length chunkSizeConst)).map (encOf content)) 0 hsome
  have hbytes_eq : (((List.range (totalChunksOf content.length chunkSizeConst)).map
        (encOf content)).map (fun c => (b64decode c).getD [])).flatten = content := by
    rw [List.map_map]
    have hcongr : (List.range (totalChunksOf content.length chunkSizeConst)).map
          ((fun c => (b64decode c).getD []) ∘ encOf content) =
        (List.range (totalChunksOf content.length chunkSizeConst)).map
          (chunkData content chunkSizeConst) := by
      apply List.map_congr_left
      intro i hi
      simp [Function.comp, hdecchunk i (List.mem_range.mp hi)]
    rw [hcongr]
    exact chunks_join chunkSizeConst chunkSizeConst_pos content
  unfold assembleAndDownloadFile
  rw [hmiss]
  simp only [ne_eq, not_true_eq_false, if_false, ite_false]
  have hexp : (dlAt host name mime content
      (totalChunksOf content.length chunkSizeConst)).expectedChunks =
      totalChunksOf content.length chunkSizeConst := rfl
  have hch : (dlAt host name mime content
      (totalChunksOf content.length chunkSizeConst)).chunks =
      buildSlots (encOf content) (totalChunksOf content.length chunkSizeConst) := rfl
  rw [hexp, hch, hmap1, hdec, hbytes_eq]

theorem handleFileChunk_store (st : AppState) (host fid target : String)
    (content : List Nat) (k : Nat) (d : Download)
    (htgt : target = st.sessionId)
    (hlook : getAssoc st.activeDownloads fid = some d)
    (hne : encOf content k ≠ []) :
    handleFileChunk st (chunkMsgAt host fid target content k) =
      handleChunkStore st (chunkMsgAt host fid target content k) d (encOf content k) := by
  unfold handleFileChunk
  have h1 : (chunkMsgAt host fid target content k).target_session_id = st.sessionId := htgt
  have h2 : (chunkMsgAt host fid target content k).file_id = fid := rfl
  rw [h1, h2, hlook]
  simp [chunkMsgAt, hne]


theorem feedChunks (host requester fid name mime : String) (content : List Nat)
    (hbytes : ∀ b ∈ content, b < 256) :
    ∀ (n k : Nat) (st : AppState),
      k + n = totalChunksOf content.length chunkSizeConst →
      0 < n →
      st.sessionId = requester →
      getAssoc st.activeDownloads fid = some (dlAt host name mime content k) →
      ((List.range' k n).map
          (fun i => OutMsg.fileChunk (chunkMsgAt host fid requester content i))).foldl
          deliverMsg st =
        { st with
          files := setAssoc st.files fid content,
          delivered := st.delivered ++ [(fid, content)],
          activeDownloads := delAssoc st.activeDownloads fid,
          outbox := st.outbox ++ [OutMsg.fileDownloaded st.sessionId fid] } := by
  intro n
  induction n with
  | zero => intro k st hsum hpos; omega
  | succ m ih =>
    intro k st hsum hpos hsid hlook
    have hk_lt : k < totalChunksOf content.length chunkSizeConst := by omega
    have hchne : chunkData content chunkSizeConst k ≠ [] :=
      chunkData_ne_nil content chunkSizeConst k chunkSizeConst_pos hk_lt
    have hencne : encOf content k ≠ [] := b64encode_ne_nil _ hchne
    rw [List.range'_succ, List.map_cons, List.foldl_cons]
    have hdeliver :
        deliverMsg st (OutMsg.fileChunk (chunkMsgAt host fid requester content k)) =
          handleFileChunk st (chunkMsgAt host fid requester content k) := rfl
    rw [hdeliver,
      handleFileChunk_store st host fid requester content k _ hsid.symm hlook hencne]
    have hidx : (chunkMsgAt host fid requester content k).chunk_index = k := rfl
    have hfid : (chunkMsgAt host fid requester content k).file_id = fid := rfl
    have hd1 : bumpDownload (dlAt host name mime content k) k (encOf content k) =
        dlAt host name mime content (k + 1) := by
      simp [bumpDownload, dlAt, buildSlots]
    unfold handleChunkStore
    simp only [hidx, hfid, hd1]
    by_cases hm : m = 0
    · subst hm
      have hk1 : k + 1 = totalChunksOf content.length chunkSizeConst := by omega
      have htrig : (dlAt host name mime content (k + 1)).receivedChunks =
          (dlAt host name mime content (k + 1)).expectedChunks := by
        simp only [dlAt]
        exact hk1
      rw [if_pos htrig]
      have hrange : List.range' (k + 1) 0 = [] := rfl
      rw [hrange, List.map_nil, List.foldl_nil]
      have hrw : dlAt host name mime content (k + 1) =
          dlAt host name mime content (totalChunksOf content.length chunkSizeConst) := by
        rw [hk1]
      rw [hrw, assemble_full _ host fid name mime content hbytes]
      simp [storeDownload, delAssoc_setAssoc_self]
    · have hk1 : k + 1 ≠ totalChunksOf content.length chunkSizeConst := by omega
      have htrig : ¬ ((dlAt host name mime content (k + 1)).receivedChunks =
          (dlAt host name mime content (k + 1)).expectedChunks) := by
        simp only [dlAt]
        exact hk1
      rw [if_neg htrig]
      rw [ih (k + 1) (storeDownload st fid (dlAt host name mime content (k + 1)))
          (by omega) (by omega) hsid (getAssoc_setAssoc_self _ _ _)]
      simp [storeDownload, delAssoc_setAssoc_self]

theorem runTransfer_eq (st0 : AppState) (host fid name mime : String)
    (content : List Nat) (hbytes : ∀ b ∈ content, b < 256) (hne : content ≠ []) :
    runTransfer st0 host fid name mime content =
      { st0 with
        files := setAssoc st0.files fid content,
        delivered := st0.delivered ++ [(fid, content)],
        activeDownloads := delAssoc st0.activeDownloads fid,
        outbox := st0.outbox ++ [OutMsg.fileDownloaded st0.sessionId fid] } := by
  have hlen : 0 < content.length := List.length_pos.mpr hne
  have htot : 0 < totalChunksOf content.length chunkSizeConst :=
    totalChunksOf_pos chunkSizeConst content.length chunkSizeConst_pos hlen
  unfold runTransfer sendFileToRequester
  rw [List.foldl_cons]
  have hmeta : deliverMsg st0
      (OutMsg.fileMetadata
        { session_id := host, file_id := fid, file_name := name,
          file_size := content.length, mime_type := mime,
          total_chunks := totalChunksOf content.length chunkSizeConst,
          target_session_id := st0.sessionId, from_session_id := host }) =
      storeDownload st0 fid (dlAt host name mime content 0) := by
    unfold deliverMsg handleFileMetadata
    simp [storeDownload, dlAt, buildSlots, chunkData]
  rw [hmeta, emitChunks_eq]
  rw [feedChunks host st0.sessionId fid name mime content hbytes
      (totalChunksOf content.length chunkSizeConst) 0
      (storeDownload st0 fid (dlAt host name mime content 0))
      (by omega) htot rfl (getAssoc_setAssoc_self _ _ _)]
  simp [storeDownload, delAssoc_setAssoc_self]

/-- Modelled from the spec: a Metadata Record of the catalog directory.
    The directory mutation code (upsert/remove/list) lives in the Rust
    coordinator, which is not under src/, so the record carries the spec
    fields the invariant concerns: id, display name, declared size and the
    host peer set. -/
structure DirRecord where
  id : String
  name : String
  size : Nat
  hosts : List String
deriving DecidableEq

/-- Modelled from the spec: the two catalog mutations. -/
inductive DirOp where
  | upsert (r : DirRecord)
  | remove (id : String)
deriving DecidableEq

/-- Modelled from the spec: remove(id) deletes any record with that id. -/
def dirRemove (d : List DirRecord) (i : String) : List DirRecord :=
  d.filter (fun r => r.id ≠ i)

/-- Modelled from the spec: upsert replaces any existing record for the id,
    newest first, and an incoming record with an empty host set is treated
    as remove. -/
def dirUpsert (d : List DirRecord) (r : DirRecord) : List DirRecord :=
  if r.hosts = [] then dirRemove d r.id else r :: dirRemove d r.id

/-- Modelled from the spec: applying one catalog mutation. -/
def applyDirOp (d : List DirRecord) : DirOp → List DirRecord
  | .upsert r => dirUpsert d r
  | .remove i => dirRemove d i

/-- Modelled from the spec: the directory after a sequence of mutations,
    starting from the empty catalog. -/
def applyDirOps (ops : List DirOp) : List DirRecord :=
  ops.foldl applyDirOp []

/-- Modelled from the spec: list() returns the snapshot. -/
def dirList (d : List DirRecord) : List DirRecord := d

/-- One table row of the shared-items listing. -/
structure FileRow where
  name : String
  hosts : List String
  downloadable : Bool
deriving DecidableEq

/-- The row updateFileList (app.js lines 360-389) renders for one file:
    the host badges come from the record's host list and the download
    button is shown exactly when that list is non-empty. -/
def fileRowOf (r : DirRecord) : FileRow :=
  { name := r.name, hosts := r.hosts, downloadable := decide (r.hosts.length > 0) }

/-- The file rows of updateFileList (app.js lines 330-412): one row per
    record of the given snapshot (text-message rows and the sort by upload
    time do not affect which records appear). -/
def updateFileRows (files : List DirRecord) : List FileRow :=
  files.map fileRowOf

theorem applyDirOp_hosts_ne_nil (d : List DirRecord)
    (hd : ∀ r ∈ d, r.hosts ≠ []) (op : DirOp) :
    ∀ r ∈ applyDirOp d op, r.hosts ≠ [] := by
  cases op with
  | upsert r0 =>
    intro r hr
    simp only [applyDirOp, dirUpsert] at hr
    by_cases h : r0.hosts = []
    · rw [if_pos h] at hr
      exact hd r (List.mem_of_mem_filter hr)
    · rw [if_neg h] at hr
      rcases List.mem_cons.mp hr with h1 | h1
      · subst h1; exact h
      · exact hd r (List.mem_of_mem_filter h1)
  | remove i =>
    intro r hr
    exact hd r (List.mem_of_mem_filter hr)

theorem applyDirOps_hosts_ne_nil (ops : List DirOp) :
    ∀ r ∈ applyDirOps ops, r.hosts ≠ [] := by
  suffices h : ∀ (ops : List DirOp) (d : List DirRecord),
      (∀ r ∈ d, r.hosts ≠ []) → ∀ r ∈ ops.foldl applyDirOp d, r.hosts ≠ [] by
    exact h ops [] (by simp)
  intro ops
  induction ops with
  | nil => intro d hd; exact hd
  | cons op rest ih =>
    intro d hd
    rw [List.foldl_cons]
    exact ih (applyDirOp d op) (applyDirOp_hosts_ne_nil d hd op)

/-- The per-attempt reconnect delay scheduled by the onclose handler of
    connectWebSocket (app.js line 94): setTimeout(connectWebSocket, 3000),
    the same 3000 ms for every attempt. -/
def reconnectDelayMs : Nat := 3000

/-- The join message sent by joinSession (app.js lines 103-110). -/
def joinMsg (sid ua : String) : OutMsg := .join sid ua

/-- Events of the websocket connection lifecycle: the onopen and onclose
    callbacks of connectWebSocket, and an application call to sendMessage. -/
inductive WsEvent where
  | opened
  | closed
  | appSend (m : OutMsg)
deriving DecidableEq

/-- Connection-lifecycle state: whether the socket is open, the messages
    sent on the current connection in order, and the delays of the
    reconnects scheduled so far. -/
structure WsState where
  connected : Bool
  sentThisConn : List OutMsg
  reconnectDelays : List Nat
deriving DecidableEq

/-- Initial state before the first connection attempt. -/
def wsInit : WsState := { connected := false, sentThisConn := [], reconnectDelays := [] }

/-- One websocket lifecycle step (app.js lines 69-116): onopen marks the
    socket connected and immediately calls joinSession, so the join message
    is the first traffic of every connection; onclose marks it disconnected
    and schedules a reconnect after the fixed 3000 ms; sendMessage sends
    only while the socket is open. -/
def wsStep (sid ua : String) (st : WsState) : WsEvent → WsState
  | .opened => { st with connected := true, sentThisConn := [joinMsg sid ua] }
  | .closed =>
    { st with connected := false, sentThisConn := [],
              reconnectDelays := st.reconnectDelays ++ [reconnectDelayMs] }
  | .appSend m =>
    if st.connected then { st with sentThisConn := st.sentThisConn ++ [m] } else st

/-- True exactly on the onclose event. -/
def isClosedEv : WsEvent → Bool
  | .closed => true
  | _ => false

theorem wsRun_invariant (sid ua : String) :
    ∀ (evs : List WsEvent) (st : WsState),
      (∀ d ∈ st.reconnectDelays, d = reconnectDelayMs) →
      (st.sentThisConn = [] ∨ ∃ rest, st.sentThisConn = joinMsg sid ua :: rest) →
      (st.connected = true → ∃ rest, st.sentThisConn = joinMsg sid ua :: rest) →
      (∀ d ∈ (evs.foldl (wsStep sid ua) st).reconnectDelays, d = reconnectDelayMs) ∧
        ((evs.foldl (wsStep sid ua) st).sentThisConn = [] ∨
          ∃ rest, (evs.foldl (wsStep sid ua) st).sentThisConn = joinMsg sid ua :: rest) ∧
        (evs.foldl (wsStep sid ua) st).reconnectDelays.length =
          st.reconnectDelays.length + (evs.filter isClosedEv).length := by
  intro evs
  induction evs with
  | nil =>
    intro st h1 h2 h3
    exact ⟨h1, h2, by simp⟩
  | cons e rest ih =>
    intro st h1 h2 h3
    rw [List.foldl_cons]
    cases e with
    | opened =>
      have := ih (wsStep sid ua st .opened)
        (by simpa [wsStep] using h1)
        (by right; exact ⟨[], rfl⟩)
        (by intro h; exact ⟨[], rfl⟩)
      refine ⟨this.1, this.2.1, ?_⟩
      rw [this.2.2]
      simp [wsStep, isClosedEv]
    | closed =>
      have hdel : ∀ d ∈ (wsStep sid ua st .closed).reconnectDelays, d = reconnectDelayMs := by
        simp only [wsStep, List.mem_append, List.mem_singleton]
        intro d hd
        rcases hd with hd | hd
        · exact h1 d hd
        · exact hd
      have := ih (wsStep sid ua st .closed) hdel (by left; rfl)
        (by intro h; simp [wsStep] at h)
      refine ⟨this.1, this.2.1, ?_⟩
      rw [this.2.2]
      simp [wsStep, isClosedEv]
      omega
    | appSend m =>
      have hsent2 : (wsStep sid ua st (.appSend m)).sentThisConn = [] ∨
          ∃ rest2, (wsStep sid ua st (.appSend m)).sentThisConn = joinMsg sid ua :: rest2 := by
        simp only [wsStep]
        by_cases hc : st.connected
        · rw [if_pos hc]
          obtain ⟨r2, hr2⟩ := h3 hc
          right
          exact ⟨r2 ++ [m], by simp [hr2]⟩
        · rw [if_neg hc]
          exact h2
      have hsent3 : (wsStep sid ua st (.appSend m)).connected = true →
          ∃ rest2, (wsStep sid ua st (.appSend m)).sentThisConn = joinMsg sid ua :: rest2 := by
        simp only [wsStep]
        by_cases hc : st.connected
        · rw [if_pos hc]
          intro hx
          obtain ⟨r2, hr2⟩ := h3 hc
          exact ⟨r2 ++ [m], by simp [hr2]⟩
        · rw [if_neg hc]
          intro hx
          exact h3 hx
      have hdel : ∀ d ∈ (wsStep sid ua st (.appSend m)).reconnectDelays,
          d = reconnectDelayMs := by
        simp only [wsStep]
        by_cases hc : st.connected
        · rw [if_pos hc]; exact h1
        · rw [if_neg hc]; exact h1
      have := ih (wsStep sid ua st (.appSend m)) hdel hsent2 hsent3
      refine ⟨this.1, this.2.1, ?_⟩
      rw [this.2.2]
      have hlen : (wsStep sid ua st (.appSend m)).reconnectDelays.length =
          st.reconnectDelays.length := by
        simp only [wsStep]
        by_cases hc : st.connected
        · rw [if_pos hc]
        · rw [if_neg hc]
      rw [hlen]
      simp [isClosedEv]

theorem assemble_lookup_none (st : AppState) (fid : String) (d : Download) :
    getAssoc (assembleAndDownloadFile st fid d).activeDownloads fid = none := by
  unfold assembleAndDownloadFile
  by_cases h : missingChunks d ≠ []
  · rw [if_pos h]
    exact getAssoc_delAssoc_self _ _
  · rw [if_neg h]
    cases hdec : decodeList ((List.range d.expectedChunks).map (getAssoc d.chunks)) 0 with
    | error i => simp [hdec, getAssoc_delAssoc_self]
    | ok bytes => simp [hdec, getAssoc_delAssoc_self]

theorem handleFileChunk_accept (st : AppState) (m : FileChunkMsg) (d : Download)
    (bs : List Char)
    (htgt : m.target_session_id = st.sessionId)
    (hlook : getAssoc st.activeDownloads m.file_id = some d)
    (hdata : m.data = some bs) (hne : bs ≠ []) :
    handleFileChunk st m = handleChunkStore st m d bs := by
  unfold handleFileChunk
  rw [htgt, hlook, hdata]
  simp [hne]

theorem feedArbitraryChunks (fid : String) (msgs : List FileChunkMsg) :
    ∀ (st : AppState) (d : Download),
      getAssoc st.activeDownloads fid = some d →
      (∀ m ∈ msgs, m.target_session_id = st.sessionId ∧ m.file_id = fid ∧
        ∃ bs, m.data = some bs ∧ bs ≠ []) →
      (d.receivedChunks + msgs.length < d.expectedChunks →
        ∃ d2, getAssoc ((msgs.foldl handleFileChunk st).activeDownloads) fid = some d2 ∧
          d2.receivedChunks = d.receivedChunks + msgs.length ∧
          d2.expectedChunks = d.expectedChunks ∧
          (msgs.foldl handleFileChunk st).delivered = st.delivered ∧
          (msgs.foldl handleFileChunk st).errors = st.errors) ∧
      (d.receivedChunks + msgs.length = d.expectedChunks → msgs ≠ [] →
        getAssoc ((msgs.foldl handleFileChunk st).activeDownloads) fid = none) := by
  induction msgs with
  | nil =>
    intro st d hlook hmsgs
    constructor
    · intro hlt
      exact ⟨d, hlook, by simp, rfl, rfl, rfl⟩
    · intro heq hne
      exact absurd rfl hne
  | cons m rest ih =>
    intro st d hlook hmsgs
    obtain ⟨htgt, hfid, bs, hdata, hbsne⟩ := hmsgs m (by simp)
    have hstep : handleFileChunk st m = handleChunkStore st m d bs := by
      apply handleFileChunk_accept st m d bs htgt _ hdata hbsne
      rw [hfid]
      exact hlook
    have hrest : ∀ m2 ∈ rest, m2.target_session_id =
        (storeDownload st m.file_id (bumpDownload d m.chunk_index bs)).sessionId ∧
        m2.file_id = fid ∧ ∃ bs2, m2.data = some bs2 ∧ bs2 ≠ [] := by
      intro m2 hm2
      exact hmsgs m2 (by simp [hm2])
    have hlook1 : getAssoc
        (storeDownload st m.file_id (bumpDownload d m.chunk_index bs)).activeDownloads fid =
        some (bumpDownload d m.chunk_index bs) := by
      unfold storeDownload
      rw [hfid]
      exact getAssoc_setAssoc_self _ _ _
    constructor
    · intro hlt
      have hnot : ¬ ((bumpDownload d m.chunk_index bs).receivedChunks =
          (bumpDownload d m.chunk_index bs).expectedChunks) := by
        simp only [bumpDownload]
        simp only [List.length_cons] at hlt
        omega
      have hrun : (m :: rest).foldl handleFileChunk st =
          rest.foldl handleFileChunk
            (storeDownload st m.file_id (bumpDownload d m.chunk_index bs)) := by
        rw [List.foldl_cons, hstep]
        unfold handleChunkStore
        rw [if_neg hnot]
      rw [hrun]
      have ihp := (ih (storeDownload st m.file_id (bumpDownload d m.chunk_index bs))
        (bumpDownload d m.chunk_index bs) hlook1 hrest).1
      have hlt2 : (bumpDownload d m.chunk_index bs).receivedChunks + rest.length <
          (bumpDownload d m.chunk_index bs).expectedChunks := by
        simp only [bumpDownload]
        simp only [List.length_cons] at hlt
        omega
      obtain ⟨d2, hl2, hr2, he2, hdel2, herr2⟩ := ihp hlt2
      refine ⟨d2, hl2, ?_, ?_, ?_, ?_⟩
      · simp only [bumpDownload] at hr2
        simp only [List.length_cons]
        omega
      · exact he2
      · exact hdel2
      · exact herr2
    · intro heq hne
      by_cases hr : rest = []
      · subst hr
        have htrig : (bumpDownload d m.chunk_index bs).receivedChunks =
            (bumpDownload d m.chunk_index bs).expectedChunks := by
          simp only [bumpDownload]
          simp only [List.length_cons, List.length_nil] at heq
          omega
        rw [List.foldl_cons, hstep, List.foldl_nil]
        unfold handleChunkStore
        rw [if_pos htrig, hfid]
        exact assemble_lookup_none _ _ _
      · have hlen : 0 < rest.length := List.length_pos.mpr hr
        have hnot : ¬ ((bumpDownload d m.chunk_index bs).receivedChunks =
            (bumpDownload d m.chunk_index bs).expectedChunks) := by
          simp only [bumpDownload]
          simp only [List.length_cons] at heq
          omega
        rw [List.foldl_cons, hstep]
        unfold handleChunkStore
        rw [if_neg hnot]
        have ihp := (ih (storeDownload st m.file_id (bumpDownload d m.chunk_index bs))
          (bumpDownload d m.chunk_index bs) hlook1 hrest).2
        apply ihp _ hr
        simp only [bumpDownload]
        simp only [List.length_cons] at heq
        omega

/-- A fresh client state with session id "me" and no activity. -/
def exState : AppState :=
  { sessionId := "me", files := [], activeDownloads := [], pendingDownloads := [],
    delivered := [], errors := [], logs := [], outbox := [] }

/-- Metadata announcing a 2-chunk transfer of file "f" to peer "me". -/
def c1meta : FileMetadataMsg :=
  { session_id := "h", file_id := "f", file_name := "n", file_size := 3,
    mime_type := "mime", total_chunks := 2, target_session_id := "me",
    from_session_id := "h" }

/-- A chunk message for index 0 of file "f" with payload "AA==". -/
def c1chunk0 : FileChunkMsg :=
  { session_id := "h", file_id := "f", chunk_index := 0, total_chunks := 2,
    data := some ['A', 'A', '=', '='], target_session_id := "me" }

/-- The state after the 2-chunk metadata and two deliveries of index 0. -/
def c1run : AppState :=
  handleFileChunk (handleFileChunk (handleFileMetadata exState c1meta) c1chunk0) c1chunk0

/-- Metadata announcing a 3-chunk transfer of file "g" to peer "me". -/
def c1meta3 : FileMetadataMsg :=
  { session_id := "h", file_id := "g", file_name := "n", file_size := 3,
    mime_type := "mime", total_chunks := 3, target_session_id := "me",
    from_session_id := "h" }

/-- A chunk message for index 0 of file "g" with payload "AA==". -/
def c1chunk3 : FileChunkMsg :=
  { session_id := "h", file_id := "g", chunk_index := 0, total_chunks := 3,
    data := some ['A', 'A', '=', '='], target_session_id := "me" }

/-- The state after the 3-chunk metadata and two deliveries of index 0. -/
def c1run3 : AppState :=
  handleFileChunk (handleFileChunk (handleFileMetadata exState c1meta3) c1chunk3) c1chunk3

/-- The entry left for file "g" after two duplicate deliveries of index 0
    into a 3-chunk transfer: count 2, a single filled slot. -/
def c1dl3 : Download :=
  { chunks := [(0, ['A', 'A', '=', '='])], expectedChunks := 3,
    receivedChunks := 2, fileName := "n", mimeType := "mime",
    fileSize := 3, fromPeer := "h" }

/-- C1 is refuted on the code: with expectedChunks = 2, delivering index 0
    twice triggers assembly (the entry is consumed, a missing-chunks error
    is reported) although index 1 was never supplied, so completion is not
    reached iff every index was supplied, and duplicates do change when
    assembly is triggered.  With expectedChunks = 3, two deliveries of
    index 0 leave receivedChunks = 2 while only one distinct slot is
    filled, so the received-count exceeds the distinct fill level. -/
theorem c1_counterexample :
    c1run.delivered = [] ∧
    c1run.errors = [ErrEvent.missingChunks [1]] ∧
    getAssoc c1run.activeDownloads "f" = none ∧
    getAssoc c1run3.activeDownloads "g" = some c1dl3 ∧
    c1dl3.receivedChunks = 2 ∧
    getAssoc c1dl3.chunks 0 = some ['A', 'A', '=', '='] ∧
    getAssoc c1dl3.chunks 1 = none ∧
    getAssoc c1dl3.chunks 2 = none := by
  decide

/-- C1 (amended): handleFileChunk counts every accepted delivery, duplicate
    or out-of-range indices included, and triggers assembly exactly when
    that count reaches expectedChunks: while the count is below
    expectedChunks the entry stays with receivedChunks equal to the number
    of accepted deliveries and nothing is delivered or reported, and at the
    delivery that makes the count equal expectedChunks assembly runs and
    consumes the entry, regardless of which indices were supplied. -/
theorem c1_completion_by_count_not_indices (fid : String) (msgs : List FileChunkMsg)
    (st : AppState) (d : Download)
    (hlook : getAssoc st.activeDownloads fid = some d)
    (hmsgs : ∀ m ∈ msgs, m.target_session_id = st.sessionId ∧ m.file_id = fid ∧
      ∃ bs, m.data = some bs ∧ bs ≠ []) :
    (d.receivedChunks + msgs.length < d.expectedChunks →
      ∃ d2, getAssoc ((msgs.foldl handleFileChunk st).activeDownloads) fid = some d2 ∧
        d2.receivedChunks = d.receivedChunks + msgs.length ∧
        d2.expectedChunks = d.expectedChunks ∧
        (msgs.foldl handleFileChunk st).delivered = st.delivered ∧
        (msgs.foldl handleFileChunk st).errors = st.errors) ∧
    (d.receivedChunks + msgs.length = d.expectedChunks → msgs ≠ [] →
      getAssoc ((msgs.foldl handleFileChunk st).activeDownloads) fid = none) :=
  feedArbitraryChunks fid msgs st d hlook hmsgs

/-- Witness for C1 (amended) at a concrete input: one delivery into a
    2-chunk transfer leaves the entry with receivedChunks = 1. -/
theorem c1_witness :
    ∃ d2, getAssoc (([c1chunk0].foldl handleFileChunk
        (handleFileMetadata exState c1meta)).activeDownloads) "f" = some d2 ∧
      d2.receivedChunks = 1 ∧ d2.expectedChunks = 2 ∧
      ([c1chunk0].foldl handleFileChunk (handleFileMetadata exState c1meta)).delivered =
        (handleFileMetadata exState c1meta).delivered ∧
      ([c1chunk0].foldl handleFileChunk (handleFileMetadata exState c1meta)).errors =
        (handleFileMetadata exState c1meta).errors :=
  (c1_completion_by_count_not_indices "f" [c1chunk0]
    (handleFileMetadata exState c1meta)
    { chunks := [], expectedChunks := 2, receivedChunks := 0, fileName := "n",
      mimeType := "mime", fileSize := 3, fromPeer := "h" }
    (by decide)
    (by
      intro m hm
      simp only [List.mem_singleton] at hm
      subst hm
      exact ⟨rfl, rfl, ['A', 'A', '=', '='], rfl, by decide⟩)).1 (by decide)

/-- Metadata declaring file_size 999 for a 1-chunk transfer of file "f". -/
def c2meta : FileMetadataMsg :=
  { session_id := "h", file_id := "f", file_name := "n", file_size := 999,
    mime_type := "mime", total_chunks := 1, target_session_id := "me",
    from_session_id := "h" }

/-- The single chunk of that transfer, carrying "AQID" (bytes 1, 2, 3). -/
def c2chunk : FileChunkMsg :=
  { session_id := "h", file_id := "f", chunk_index := 0, total_chunks := 1,
    data := some ['A', 'Q', 'I', 'D'], target_session_id := "me" }

/-- The state after the metadata and the single chunk are processed. -/
def c2run : AppState := handleFileChunk (handleFileMetadata exState c2meta) c2chunk

/-- C2 is refuted on the code: the transfer declares totalSize 999 but the
    assembled bytes are only the three bytes 1, 2, 3; the file is delivered
    and stored with no error at all, so the length mismatch is silently
    tolerated, not reported as corruption. -/
theorem c2_counterexample :
    c2run.delivered = [("f", [1, 2, 3])] ∧
    c2run.errors = [] ∧
    getAssoc c2run.files "f" = some [1, 2, 3] := by
  decide

/-- C2 (amended): on completion the assembler concatenates the slots in
    index order and delivers the result, but it never compares the
    assembled byte length with the declared totalSize: the outcome of
    assembleAndDownloadFile is identical for every declared fileSize, and
    whenever no slot is missing and every slot decodes, the concatenation
    is delivered with no error even if its length differs from the
    declared size. -/
theorem c2_assemble_concats_but_never_checks_size (st : AppState) (fid : String)
    (d : Download) (n : Nat) :
    assembleAndDownloadFile st fid { d with fileSize := n } =
      assembleAndDownloadFile st fid d ∧
    (∀ bytes, missingChunks d = [] →
      decodeList ((List.range d.expectedChunks).map (getAssoc d.chunks)) 0 =
        .ok bytes →
      (assembleAndDownloadFile st fid d).delivered = st.delivered ++ [(fid, bytes)] ∧
      (assembleAndDownloadFile st fid d).errors = st.errors) := by
  constructor
  · rfl
  · intro bytes hmiss hdec
    unfold assembleAndDownloadFile
    rw [hmiss]
    simp [hdec]

/-- The download entry holding one decodable chunk under a declared size
    of 999 bytes. -/
def c2dl : Download :=
  { chunks := [(0, ['A', 'Q', 'I', 'D'])], expectedChunks := 1,
    receivedChunks := 1, fileName := "n", mimeType := "mime",
    fileSize := 999, fromPeer := "h" }

/-- Witness for C2 (amended) at a concrete input: the 3-byte assembly is
    delivered with no error although the entry declares 999 bytes. -/
theorem c2_witness :
    (assembleAndDownloadFile exState "f" c2dl).delivered =
      exState.delivered ++ [("f", [1, 2, 3])] ∧
    (assembleAndDownloadFile exState "f" c2dl).errors = exState.errors :=
  (c2_assemble_concats_but_never_checks_size exState "f" c2dl 999).2
    [1, 2, 3] (by decide) rfl

/-- Metadata announcing a 2-chunk transfer of file "f" to peer "me". -/
def c3meta : FileMetadataMsg :=
  { session_id := "h", file_id := "f", file_name := "n", file_size := 3,
    mime_type := "mime", total_chunks := 2, target_session_id := "me",
    from_session_id := "h" }

/-- A chunk message with the out-of-range index 5 for that transfer. -/
def c3chunk5 : FileChunkMsg :=
  { session_id := "h", file_id := "f", chunk_index := 5, total_chunks := 2,
    data := some ['A', 'A', '=', '='], target_session_id := "me" }

/-- The state after the metadata and the out-of-range chunk. -/
def c3run : AppState := handleFileChunk (handleFileMetadata exState c3meta) c3chunk5

/-- C3 is refuted on the code: with expectedChunks = 2, a chunk with index
    5 is stored at slot 5 and advances the received-count to 1, with no
    error of any kind: there is no range check on the index. -/
theorem c3_counterexample :
    getAssoc c3run.activeDownloads "f" =
      some { chunks := [(5, ['A', 'A', '=', '='])], expectedChunks := 2,
             receivedChunks := 1, fileName := "n", mimeType := "mime",
             fileSize := 3, fromPeer := "h" } ∧
    c3run.logs = [] ∧
    c3run.errors = [] := by
  decide

/-- C3 (amended): handleFileChunk rejects, each with its own distinct
    console error and no other state change, only chunks for an unknown
    transfer and chunks whose payload is missing, not a string, or empty;
    an accepted payload is stored at the given index with no range check,
    so even an out-of-range index is stored and advances the
    received-count; payload decoding is not attempted at accept time. -/
theorem c3_accept_no_range_check (st : AppState) (m : FileChunkMsg)
    (htgt : m.target_session_id = st.sessionId) :
    (getAssoc st.activeDownloads m.file_id = none →
      handleFileChunk st m =
        { st with logs := st.logs ++ [LogEvent.unknownDownload m.file_id] }) ∧
    (∀ d, getAssoc st.activeDownloads m.file_id = some d →
      m.data = none ∨ m.data = some [] →
      handleFileChunk st m =
        { st with logs := st.logs ++ [LogEvent.invalidChunkData m.file_id m.chunk_index] }) ∧
    (∀ d bs, getAssoc st.activeDownloads m.file_id = some d → m.data = some bs →
      bs ≠ [] → d.receivedChunks + 1 ≠ d.expectedChunks →
      handleFileChunk st m = storeDownload st m.file_id (bumpDownload d m.chunk_index bs) ∧
      (bumpDownload d m.chunk_index bs).receivedChunks = d.receivedChunks + 1 ∧
      getAssoc (bumpDownload d m.chunk_index bs).chunks m.chunk_index = some bs) := by
  refine ⟨?_, ?_, ?_⟩
  · intro hlook
    unfold handleFileChunk
    rw [htgt, hlook]
    simp
  · intro d hlook hdata
    unfold handleFileChunk
    rw [htgt, hlook]
    rcases hdata with h | h
    · rw [h]; simp
    · rw [h]; simp
  · intro d bs hlook hdata hne htrig
    refine ⟨?_, rfl, getAssoc_setAssoc_self _ _ _⟩
    rw [handleFileChunk_accept st m d bs htgt hlook hdata hne]
    unfold handleChunkStore
    rw [if_neg ?hnot]
    case hnot =>
      simp only [bumpDownload]
      omega

/-- The fresh 2-chunk download entry for file "f" created by c3meta. -/
def c3dl0 : Download :=
  { chunks := [], expectedChunks := 2, receivedChunks := 0, fileName := "n",
    mimeType := "mime", fileSize := 3, fromPeer := "h" }

/-- Witness for C3 (amended) at a concrete input: the out-of-range chunk
    index 5 is stored and counted. -/
theorem c3_witness :
    handleFileChunk (handleFileMetadata exState c3meta) c3chunk5 =
      storeDownload (handleFileMetadata exState c3meta) "f"
        (bumpDownload c3dl0 5 ['A', 'A', '=', '=']) ∧
    (bumpDownload c3dl0 5 ['A', 'A', '=', '=']).receivedChunks = 0 + 1 ∧
    getAssoc (bumpDownload c3dl0 5 ['A', 'A', '=', '=']).chunks 5 =
      some ['A', 'A', '=', '='] :=
  (c3_accept_no_range_check (handleFileMetadata exState c3meta) c3chunk5
    (by decide)).2.2 c3dl0
    ['A', 'A', '=', '='] (by decide) rfl (by decide) (by decide)

/-- C4 is refuted on the code: the complete message sequence for a 1-byte
    file is exactly one metadata message followed by one chunk message;
    nothing follows the last chunk, so no end-of-transfer marker message is
    ever sent (no such message kind even exists in the client). -/
theorem c4_counterexample :
    sendFileToRequester "h" "r" "f" "n" "mm" [5] =
      [OutMsg.fileMetadata
        { session_id := "h", file_id := "f", file_name := "n", file_size := 1,
          mime_type := "mm", total_chunks := 1, target_session_id := "r",
          from_session_id := "h" },
       OutMsg.fileChunk
        { session_id := "h", file_id := "f", chunk_index := 0, total_chunks := 1,
          data := some ['B', 'Q', '=', '='], target_session_id := "r" }] := by
  decide

/-- C4 (amended): on the relay path the emitter sends exactly one
    metadata-announcement message, first, before chunk 0, and after it only
    chunk messages — exactly ceil(size divided by chunk size) of them; no
    end-of-transfer marker message follows the last chunk. -/
theorem c4_metadata_first_no_end_marker (sid requester fid name mime : String)
    (content : List Nat) :
    (sendFileToRequester sid requester fid name mime content).head? =
      some (OutMsg.fileMetadata
        { session_id := sid, file_id := fid, file_name := name,
          file_size := content.length, mime_type := mime,
          total_chunks := totalChunksOf content.length chunkSizeConst,
          target_session_id := requester, from_session_id := sid }) ∧
    (∀ m ∈ (sendFileToRequester sid requester fid name mime content).tail,
      ∃ cm, m = OutMsg.fileChunk cm) ∧
    (sendFileToRequester sid requester fid name mime content).tail.length =
      totalChunksOf content.length chunkSizeConst := by
  refine ⟨rfl, ?_, ?_⟩
  · intro m hm
    simp only [sendFileToRequester, List.tail_cons, emitChunks] at hm
    obtain ⟨i, hi, rfl⟩ := List.mem_map.mp hm
    exact ⟨_, rfl⟩
  · simp [sendFileToRequester, emitChunks]

/-- Witness for C4 (amended) at a concrete input. -/
theorem c4_witness :
    (sendFileToRequester "h" "r" "f" "n" "mm" [5]).head? =
      some (OutMsg.fileMetadata
        { session_id := "h", file_id := "f", file_name := "n", file_size := 1,
          mime_type := "mm", total_chunks := 1, target_session_id := "r",
          from_session_id := "h" }) ∧
    ∃ cm, OutMsg.fileChunk
        { session_id := "h", file_id := "f", chunk_index := 0, total_chunks := 1,
          data := some ['B', 'Q', '=', '='], target_session_id := "r" } =
      OutMsg.fileChunk cm :=
  ⟨(c4_metadata_first_no_end_marker "h" "r" "f" "n" "mm" [5]).1,
   (c4_metadata_first_no_end_marker "h" "r" "f" "n" "mm" [5]).2.1 _ (by decide)⟩

/-- C5 (confirmed): for any chunk size C greater than 0 the emitter splits
    the content into contiguous slices of exactly C bytes except a
    truncated final slice, emits exactly ceil(size divided by C) chunk
    messages with indices 0, 1, 2 and so on in order, each carrying its
    index, the total count and the base64-encoded slice, the slices
    concatenate back to the content, and sendFileToRequester is exactly
    the metadata message followed by these chunk messages at the fixed
    64 KiB chunk size. -/
theorem c5_emitter_chunk_properties (sid fid target requester name mime : String)
    (content : List Nat) (C : Nat) (hC : 0 < C) :
    (emitChunks sid fid target content C).length = (content.length + C - 1) / C ∧
    (∀ i (h : i < (emitChunks sid fid target content C).length),
      (emitChunks sid fid target content C)[i] =
        OutMsg.fileChunk
          { session_id := sid, file_id := fid, chunk_index := i,
            total_chunks := totalChunksOf content.length C,
            data := some (b64encode (chunkData content C i)),
            target_session_id := target }) ∧
    (∀ i, i + 1 < totalChunksOf content.length C →
      (chunkData content C i).length = C) ∧
    (0 < totalChunksOf content.length C →
      (chunkData content C (totalChunksOf content.length C - 1)).length =
        content.length - (totalChunksOf content.length C - 1) * C ∧
      (chunkData content C (totalChunksOf content.length C - 1)).length ≤ C) ∧
    ((List.range (totalChunksOf content.length C)).map (chunkData content C)).flatten =
      content ∧
    sendFileToRequester sid requester fid name mime content =
      OutMsg.fileMetadata
        { session_id := sid, file_id := fid, file_name := name,
          file_size := content.length, mime_type := mime,
          total_chunks := totalChunksOf content.length chunkSizeConst,
          target_session_id := requester, from_session_id := sid } ::
        emitChunks sid fid requester content chunkSizeConst := by
  refine ⟨?_, ?_, ?_, ?_, chunks_join C hC content, rfl⟩
  · simp [emitChunks, totalChunksOf]
  · intro i h
    simp [emitChunks]
  · intro i hi
    have h1 : (i + 1) * C < content.length :=
      mul_lt_of_lt_totalChunksOf C content.length (i + 1) hC hi
    have h2 : (i + 1) * C = i * C + C := by ring
    rw [chunkData_length]
    omega
  · intro ht
    obtain ⟨u, hu⟩ : ∃ u, totalChunksOf content.length C = u + 1 :=
      ⟨totalChunksOf content.length C - 1, by omega⟩
    have hu' : u < totalChunksOf content.length C := by omega
    have h1 : u * C < content.length :=
      mul_lt_of_lt_totalChunksOf C content.length u hC hu'
    have h2 : content.length ≤ totalChunksOf content.length C * C :=
      le_totalChunksOf_mul C content.length hC
    rw [hu] at h2
    have h3 : (u + 1) * C = u * C + C := by ring
    rw [hu]
    simp only [Nat.add_sub_cancel]
    constructor
    · rw [chunkData_length]
      omega
    · rw [chunkData_length]
      omega

/-- Witness for C5 at a concrete input: chunk size 2 over 3 bytes gives
    two chunks that concatenate back to the content. -/
theorem c5_witness :
    (0 < 2 ∧ (emitChunks "s" "f" "t" [1, 2, 3] 2).length = 2) ∧
    ((List.range (totalChunksOf 3 2)).map (chunkData [1, 2, 3] 2)).flatten =
      [1, 2, 3] :=
  ⟨⟨by decide,
    ((c5_emitter_chunk_properties "s" "f" "t" "r" "n" "m" [1, 2, 3] 2 (by decide)).1).trans
      (by decide)⟩,
   (c5_emitter_chunk_properties "s" "f" "t" "r" "n" "m" [1, 2, 3] 2 (by decide)).2.2.2.2.1⟩

/-- C6 is refuted on the code for the empty content: a size-0 transfer
    announces total_chunks = 0, no chunk message is ever sent, and the
    completion check lives only inside handleFileChunk, which never runs —
    so nothing is ever delivered and the download entry stays behind
    forever; the empty file is not reproduced. -/
theorem c6_counterexample :
    (runTransfer exState "h" "f" "n" "mm" ([] : List Nat)).delivered = [] ∧
    getAssoc (runTransfer exState "h" "f" "n" "mm" ([] : List Nat)).activeDownloads
      "f" ≠ none := by
  decide

/-- C6 (amended): for contents of the sizes 1, C-1, C, C+1 and 10 C (with
    C the fixed 64 KiB chunk size) whose bytes are below 256, splitting via
    sendFileToRequester and feeding every emitted message to the receiving
    client reproduces the content byte-for-byte as the delivered file, with
    no error and the download entry consumed; the size-0 case does not
    complete (see the counterexample). -/
theorem c6_roundtrip_nonempty_sizes (st0 : AppState) (host fid name mime : String)
    (content : List Nat) (hbytes : ∀ b ∈ content, b < 256)
    (hsize : content.length = 1 ∨ content.length = chunkSizeConst - 1 ∨
      content.length = chunkSizeConst ∨ content.length = chunkSizeConst + 1 ∨
      content.length = 10 * chunkSizeConst) :
    (runTransfer st0 host fid name mime content).delivered =
      st0.delivered ++ [(fid, content)] ∧
    getAssoc (runTransfer st0 host fid name mime content).activeDownloads fid = none ∧
    (runTransfer st0 host fid name mime content).errors = st0.errors ∧
    getAssoc (runTransfer st0 host fid name mime content).files fid = some content := by
  have hlen : content.length ≠ 0 := by
    rcases hsize with h | h | h | h | h <;> rw [h] <;> decide
  have hne : content ≠ [] := by
    intro hc
    subst hc
    exact hlen rfl
  rw [runTransfer_eq st0 host fid name mime content hbytes hne]
  exact ⟨rfl, getAssoc_delAssoc_self _ _, rfl, getAssoc_setAssoc_self _ _ _⟩

/-- Witness for C6 (amended) at a concrete input: the 1-byte content 42
    is delivered byte-identically. -/
theorem c6_witness :
    (runTransfer exState "h" "f" "n" "mm" [42]).delivered =
      exState.delivered ++ [("f", [42])] ∧
    getAssoc (runTransfer exState "h" "f" "n" "mm" [42]).files "f" = some [42] :=
  ⟨(c6_roundtrip_nonempty_sizes exState "h" "f" "n" "mm" [42]
      (by decide) (Or.inl rfl)).1,
   (c6_roundtrip_nonempty_sizes exState "h" "f" "n" "mm" [42]
      (by decide) (Or.inl rfl)).2.2.2⟩

/-- C7 (confirmed, directory modelled from the spec): after any sequence
    of catalog mutations, every record in the list() snapshot has a
    non-empty host set, and so does every row the client's updateFileList
    renders from that snapshot — a record whose host set becomes empty is
    deleted, not retained, and is absent from the displayed listing. -/
theorem c7_empty_hosts_absent (ops : List DirOp) :
    (∀ r ∈ dirList (applyDirOps ops), r.hosts ≠ []) ∧
    (∀ row ∈ updateFileRows (dirList (applyDirOps ops)), row.hosts ≠ []) := by
  refine ⟨applyDirOps_hosts_ne_nil ops, ?_⟩
  intro row hrow
  simp only [updateFileRows, dirList] at hrow
  obtain ⟨r, hr, rfl⟩ := List.mem_map.mp hrow
  exact applyDirOps_hosts_ne_nil ops r hr

/-- A record with one host, used to exercise the directory model. -/
def c7rec : DirRecord := { id := "i", name := "n", size := 3, hosts := ["h"] }

/-- Witness for C7 at a concrete input: after one upsert the stored record
    has a non-empty host set. -/
theorem c7_witness : c7rec.hosts ≠ [] :=
  (c7_empty_hosts_absent [DirOp.upsert c7rec]).1 c7rec (by decide)

/-- C8 (confirmed): for every transfer, assembly always discards the
    chunk buffer (the activeDownloads entry); whenever it fails — a
    missing slot at completion time or any slot whose payload does not
    decode — the transfer is marked failed by a reported error, the files
    table is untouched and nothing at all is delivered to the user; and
    when it succeeds, the single delivery is the complete concatenation of
    all slots, never a part of it. -/
theorem c8_assemble_failure_contract (st : AppState) (fid : String) (d : Download) :
    getAssoc (assembleAndDownloadFile st fid d).activeDownloads fid = none ∧
    ((missingChunks d ≠ [] ∨
        ∀ bytes, decodeList ((List.range d.expectedChunks).map (getAssoc d.chunks)) 0 ≠
          .ok bytes) →
      (assembleAndDownloadFile st fid d).delivered = st.delivered ∧
      (assembleAndDownloadFile st fid d).files = st.files ∧
      ∃ e, (assembleAndDownloadFile st fid d).errors = st.errors ++ [e]) ∧
    (∀ bytes, missingChunks d = [] →
      decodeList ((List.range d.expectedChunks).map (getAssoc d.chunks)) 0 = .ok bytes →
      (assembleAndDownloadFile st fid d).delivered = st.delivered ++ [(fid, bytes)]) := by
  refine ⟨assemble_lookup_none st fid d, ?_, ?_⟩
  · intro hfail
    unfold assembleAndDownloadFile
    by_cases hmiss : missingChunks d ≠ []
    · rw [if_pos hmiss]
      exact ⟨rfl, rfl, ErrEvent.missingChunks (missingChunks d), rfl⟩
    · rw [if_neg hmiss]
      rcases hfail with hfail | hfail
      · exact absurd hfail hmiss
      · cases hdec : decodeList ((List.range d.expectedChunks).map (getAssoc d.chunks)) 0 with
        | error i => simp [hdec]
        | ok bytes => exact absurd hdec (hfail bytes)
  · intro bytes hmiss hdec
    unfold assembleAndDownloadFile
    rw [hmiss]
    simp [hdec]

/-- A download entry whose only slot is still missing. -/
def c8dl : Download :=
  { chunks := [], expectedChunks := 1, receivedChunks := 1, fileName := "n",
    mimeType := "mime", fileSize := 3, fromPeer := "h" }

/-- Witness for C8 at a concrete input: assembling with a missing slot
    delivers nothing, leaves files untouched and reports an error. -/
theorem c8_witness :
    (assembleAndDownloadFile exState "f" c8dl).delivered = exState.delivered ∧
    (assembleAndDownloadFile exState "f" c8dl).files = exState.files ∧
    ∃ e, (assembleAndDownloadFile exState "f" c8dl).errors = exState.errors ++ [e] :=
  (c8_assemble_failure_contract exState "f" c8dl).2.1 (Or.inl (by decide))

/-- C9 is refuted on the code for the backoff part: after two consecutive
    disconnects the scheduled reconnect delays are 3000 ms and 3000 ms —
    the delay never grows with consecutive failures, so the reconnect has
    a fixed delay, not a backoff. -/
theorem c9_counterexample :
    ([WsEvent.closed, WsEvent.closed].foldl (wsStep "s" "u") wsInit).reconnectDelays =
      [3000, 3000] ∧
    ¬ (([WsEvent.closed, WsEvent.closed].foldl (wsStep "s" "u") wsInit).reconnectDelays.getD
        0 0 <
       ([WsEvent.closed, WsEvent.closed].foldl (wsStep "s" "u") wsInit).reconnectDelays.getD
        1 0) := by
  decide

/-- C9 (amended): whenever the relay connection closes the client
    schedules an automatic reconnect — one per close event — after a fixed
    3000 ms delay (the same for every attempt, no increasing backoff), and
    on every successful reconnect the join message is the first message
    sent on the new connection, before any other traffic. -/
theorem c9_reconnect_fixed_delay_join_first (sid ua : String) (evs : List WsEvent) :
    (∀ d ∈ (evs.foldl (wsStep sid ua) wsInit).reconnectDelays, d = 3000) ∧
    ((evs.foldl (wsStep sid ua) wsInit).sentThisConn = [] ∨
      ∃ rest, (evs.foldl (wsStep sid ua) wsInit).sentThisConn =
        joinMsg sid ua :: rest) ∧
    (evs.foldl (wsStep sid ua) wsInit).reconnectDelays.length =
      (evs.filter isClosedEv).length := by
  have h := wsRun_invariant sid ua evs wsInit
    (by intro d hd; simp [wsInit] at hd)
    (by left; rfl)
    (by intro hx; simp [wsInit] at hx)
  refine ⟨?_, h.2.1, ?_⟩
  · intro d hd
    have := h.1 d hd
    simpa [reconnectDelayMs] using this
  · have := h.2.2
    simpa [wsInit] using this

/-- Witness for C9 (amended) at a concrete input: after a close and a
    reopen, exactly one 3000 ms reconnect was scheduled and the join
    message heads the traffic of the new connection. -/
theorem c9_witness :
    ([WsEvent.closed, WsEvent.opened].foldl (wsStep "s" "u") wsInit).reconnectDelays.length
      = 1 ∧
    ∃ rest, ([WsEvent.closed, WsEvent.opened].foldl (wsStep "s" "u") wsInit).sentThisConn
      = joinMsg "s" "u" :: rest := by
  have h := c9_reconnect_fixed_delay_join_first "s" "u" [WsEvent.closed, WsEvent.opened]
  refine ⟨h.2.2.trans (by decide), ?_⟩
  rcases h.2.1 with h2 | h2
  · exact absurd h2 (by decide)
  · exact h2

/-- A metadata message addressed to a different peer. -/
def c10mm : FileMetadataMsg :=
  { session_id := "h", file_id := "f", file_name := "n", file_size := 3,
    mime_type := "mime", total_chunks := 2, target_session_id := "other",
    from_session_id := "h" }

/-- A chunk message addressed to a different peer. -/
def c10cm : FileChunkMsg :=
  { session_id := "h", file_id := "f", chunk_index := 0, total_chunks := 2,
    data := some ['A', 'A', '=', '='], target_session_id := "other" }

/-- C10 (confirmed): a file_metadata or file_chunk message whose
    target_session_id differs from the local session id leaves the entire
    client state — in particular activeDownloads, files and
    pendingDownloads — completely unchanged. -/
theorem c10_frame_other_target (st : AppState) (mm : FileMetadataMsg)
    (cm : FileChunkMsg)
    (h1 : mm.target_session_id ≠ st.sessionId)
    (h2 : cm.target_session_id ≠ st.sessionId) :
    handleFileMetadata st mm = st ∧ handleFileChunk st cm = st := by
  constructor
  · unfold handleFileMetadata
    rw [if_pos h1]
  · unfold handleFileChunk
    rw [if_pos h2]

/-- Witness for C10 at a concrete input. -/
theorem c10_witness :
    handleFileMetadata exState c10mm = exState ∧
    handleFileChunk exState c10cm = exState :=
  c10_frame_other_target exState c10mm c10cm (by decide) (by decide)
